import Mathlib

/-!
Verification of the SIGMA field-matching core (`src/field.rs`) of the
`tau` detection-rule engine.

The `Field` data model, the value-preparation pipeline (`Field::bootstrap`)
and the evaluation engine (`Field::evaluate`) are translated directly from
`src/field.rs`.  Collaborator modules that are not part of the provided
source (the modifier set, the scalar value type, the event model, the
wildcard tokenizer, the CIDR/regex engines and the string transforms) are
modelled from the specification; each such definition carries a doc
comment saying so.
-/

/-! ## String helpers (structural, kernel-reducible) -/

/-- Lower-case every character of a string (ASCII case folding, matching
the case-insensitive comparison contract of the spec). -/
def lowerStr (s : String) : String := String.mk (s.data.map Char.toLower)

/-- Fold a string for comparison: identity when `cased` is set,
lower-cased otherwise. -/
def strFold (cased : Bool) (s : String) : String :=
  if cased then s else lowerStr s

/-- Character-list prefix test. -/
def charsPrefix : List Char → List Char → Bool
  | [], _ => true
  | _ :: _, [] => false
  | a :: as, b :: bs => a == b && charsPrefix as bs

/-- All suffixes of a character list (itself included). -/
def charSuffixes : List Char → List (List Char)
  | [] => [[]]
  | c :: cs => (c :: cs) :: charSuffixes cs

/-- Substring test: `sub` occurs somewhere inside `s`. -/
def strContains (s sub : String) : Bool :=
  (charSuffixes s.data).any (fun t => charsPrefix sub.data t)

/-- Prefix test on strings. -/
def strStarts (s p : String) : Bool := charsPrefix p.data s.data

/-- Suffix test on strings. -/
def strEnds (s p : String) : Bool :=
  charsPrefix p.data.reverse s.data.reverse

/-- Lexicographic comparison of character lists. -/
def charsCompare : List Char → List Char → Ordering
  | [], [] => .eq
  | [], _ :: _ => .lt
  | _ :: _, [] => .gt
  | a :: as, b :: bs =>
    if a < b then .lt else if b < a then .gt else charsCompare as bs

/-- Split a character list at every occurrence of a separator character. -/
def splitOnChar (sep : Char) : List Char → List (List Char)
  | [] => [[]]
  | c :: cs =>
    let rest := splitOnChar sep cs
    if c == sep then [] :: rest
    else
      match rest with
      | [] => [[c]]
      | r :: rs => (c :: r) :: rs

/-- Parse a list of decimal digits into a number; `none` when empty or
when a non-digit appears. -/
def digitsToNat : List Char → Option Nat
  | [] => none
  | cs => go cs 0
where
  go : List Char → Nat → Option Nat
    | [], acc => some acc
    | c :: cs, acc =>
      if c.isDigit then go cs (acc * 10 + (c.toNat - 48)) else none

/-! ## Wildcard tokens (`wildcard.rs` is not part of the provided source).

`field.rs` consumes `tokenize` and the token constructor
`WildcardToken::Star`; the literal-token constructor and the matching
predicate are modelled from the spec. -/

/-- Modelled from the spec: a wildcard pattern is an ordered sequence of
literal-text and wildcard (`*`) tokens (`wildcard.rs` is missing). -/
inductive WildcardToken where
  | Star : WildcardToken
  | Pattern (cs : List Char) : WildcardToken
deriving DecidableEq, Repr

/-- Group consecutive non-star characters into literal tokens. -/
def tokenizeAux : List Char → List WildcardToken
  | [] => []
  | c :: rest =>
    if c == '*' then WildcardToken.Star :: tokenizeAux rest
    else
      match tokenizeAux rest with
      | WildcardToken.Pattern cs :: ts => WildcardToken.Pattern (c :: cs) :: ts
      | ts => WildcardToken.Pattern [c] :: ts

/-- Modelled from the spec: `tokenize(s, case_insensitive)` turns a string
into a literal/wildcard token sequence, case-folded when the comparison is
case-insensitive (`wildcard.rs` is missing). -/
def tokenize (s : String) (caseInsensitive : Bool) : List WildcardToken :=
  tokenizeAux (if caseInsensitive then lowerStr s else s).data

/-- Modelled from the spec: the wildcard-pattern matching predicate — a
`Star` token matches any (possibly empty) run of characters, a literal
token matches itself (`wildcard.rs` is missing). -/
def wildMatch : List WildcardToken → List Char → Bool
  | [], [] => true
  | [], _ :: _ => false
  | WildcardToken.Pattern cs :: ts, s =>
    charsPrefix cs s && wildMatch ts (s.drop cs.length)
  | WildcardToken.Star :: ts, s =>
    (charSuffixes s).any (fun t => wildMatch ts t)

/-! ## Scalar values (`basevalue.rs` is not part of the provided source).

`field.rs` consumes the constructors `BaseValue::Boolean` and
`BaseValue::String`; the spec lists the kinds as boolean, string, number
and null.  Numbers are modelled as integers (the claims under
verification do not depend on floating-point values). -/

/-- Modelled from the spec: the base scalar value type — boolean, string,
number (modelled as an integer) or null (`basevalue.rs` is missing). -/
inductive BaseValue where
  | Boolean (b : Bool) : BaseValue
  | String (s : String) : BaseValue
  | Int (i : Int) : BaseValue
  | Null : BaseValue
deriving DecidableEq, Repr

/-- Modelled from the spec: the canonical string form of a scalar
(`value_to_string` of the missing `value.rs`). -/
def baseValueToString : BaseValue → String
  | BaseValue.Boolean true => "true"
  | BaseValue.Boolean false => "false"
  | BaseValue.String s => s
  | BaseValue.Int i => toString i
  | BaseValue.Null => "null"

def BaseValue.value_to_string := baseValueToString

/-! ## Error type (`error.rs` is not part of the provided source; the
variants are those constructed in `field.rs` plus the stringify type
error described in the spec). -/

/-- The parser error type: variants as raised by `Field::bootstrap`
(`EmptyValues`, `InvalidValueForExists`, `InvalidValueForStringModifier`,
`IPParsing`, `RegexParsing`, `InvalidYAML`) plus `InvalidValueType`,
modelled from the spec for the failing stringify step. -/
inductive ParserError where
  | EmptyValues (name : String) : ParserError
  | InvalidValueForExists : ParserError
  | InvalidValueForStringModifier (name : String) : ParserError
  | IPParsing (s : String) (cause : String) : ParserError
  | RegexParsing (cause : String) : ParserError
  | InvalidYAML (s : String) : ParserError
  | InvalidValueType : ParserError
deriving DecidableEq, Repr

/-! ## CIDR model (the `cidr` crate is an out-of-scope standard library
per the spec; modelled as IPv4 networks). -/

/-- Modelled from the spec: a parsed IPv4 network — a 32-bit address and
a mask length (the `cidr` crate is out of scope). -/
structure IpCidr where
  addr : Nat
  maskLen : Nat
deriving DecidableEq, Repr

/-- Parse a dotted-quad IPv4 address into its 32-bit value. -/
def parseIpv4 (s : String) : Option Nat :=
  match (splitOnChar '.' s.data).mapM digitsToNat with
  | some [a, b, c, d] =>
    if a ≤ 255 && b ≤ 255 && c ≤ 255 && d ≤ 255 then
      some (((a * 256 + b) * 256 + c) * 256 + d)
    else none
  | _ => none

/-- Modelled from the spec: parse an address or CIDR block; failure
carries a textual cause (the `cidr` crate is out of scope). -/
def IpCidr.from_str (s : String) : Except String IpCidr :=
  match splitOnChar '/' s.data with
  | [addr] =>
    match parseIpv4 (String.mk addr) with
    | some a => Except.ok { addr := a, maskLen := 32 }
    | none => Except.error "failed to parse address"
  | [addr, m] =>
    match parseIpv4 (String.mk addr), digitsToNat m with
    | some a, some n =>
      if n ≤ 32 then Except.ok { addr := a, maskLen := n }
      else Except.error "invalid mask length"
    | _, _ => Except.error "failed to parse cidr"
  | _ => Except.error "failed to parse cidr"

/-- Modelled from the spec: CIDR containment of an address given in
string form; an unparsable address is a non-match. -/
def IpCidr.containsStr (c : IpCidr) (s : String) : Bool :=
  match parseIpv4 s with
  | some a => a / 2 ^ (32 - c.maskLen) == c.addr / 2 ^ (32 - c.maskLen)
  | none => false

/-! ## Regex model (the `regex` crate is an out-of-scope standard
library per the spec). -/

/-- Modelled from the spec: a compiled regular expression, carrying its
pattern (the `regex` crate is out of scope). -/
structure Regex where
  pattern : String
deriving DecidableEq, Repr

/-- Scan for balanced parentheses and closed character classes; stands in
for regex-syntax validation. -/
def regexScan : List Char → Nat → Bool → Bool
  | [], d, inB => d == 0 && !inB
  | c :: rest, d, true =>
    if c == ']' then regexScan rest d false else regexScan rest d true
  | c :: rest, d, false =>
    if c == '(' then regexScan rest (d + 1) false
    else if c == ')' then
      match d with
      | 0 => false
      | d' + 1 => regexScan rest d' false
    else if c == '[' then regexScan rest d true
    else regexScan rest d false

/-- Modelled from the spec: regex compilation, which can fail on a
malformed pattern (the `regex` crate is out of scope; failure is
represented by an unbalanced-bracket check). -/
def Regex.new (s : String) : Except String Regex :=
  if regexScan s.data 0 false then Except.ok { pattern := s }
  else Except.error "regex parse error"

/-- Modelled from the spec: regex search against an event string (the
`regex` crate is out of scope; the model searches the pattern text as a
literal substring). -/
def Regex.search (r : Regex) (s : String) : Bool := strContains s r.pattern

/-! ## String transforms (`transformation.rs` is not part of the provided
source; all of the following are modelled from the spec, calibrated
against the expected outputs recorded in the tests of `field.rs`). -/

/-- The UTF-16 sub-variant of the base64-family transformers
(constructors `Utf16le`/`Utf16be` appear in the tests of `field.rs`). -/
inductive Utf16Modifier where
  | Utf16le : Utf16Modifier
  | Utf16be : Utf16Modifier
deriving DecidableEq, Repr

/-- UTF-16 code units of a character (surrogate pair above the BMP). -/
def utf16Units (c : Char) : List Nat :=
  let n := c.toNat
  if n < 65536 then [n]
  else
    let m := n - 65536
    [55296 + m / 1024, 56320 + m % 1024]

/-- UTF-8 bytes of a character. -/
def utf8Bytes (c : Char) : List Nat :=
  let n := c.toNat
  if n < 128 then [n]
  else if n < 2048 then [192 + n / 64, 128 + n % 64]
  else if n < 65536 then [224 + n / 4096, 128 + n / 64 % 64, 128 + n % 64]
  else [240 + n / 262144, 128 + n / 4096 % 64, 128 + n / 64 % 64, 128 + n % 64]

/-- Modelled from the spec: the byte sequence a base64-family transform
encodes — the UTF-16 little- or big-endian re-encoding when a utf16
variant is given, the UTF-8 bytes otherwise. -/
def stringBytes (s : String) (u : Option Utf16Modifier) : List Nat :=
  match u with
  | none => s.data.flatMap utf8Bytes
  | some Utf16Modifier.Utf16le =>
    (s.data.flatMap utf16Units).flatMap (fun w => [w % 256, w / 256])
  | some Utf16Modifier.Utf16be =>
    (s.data.flatMap utf16Units).flatMap (fun w => [w / 256, w % 256])

/-- The base64 alphabet. -/
def b64Char (n : Nat) : Char :=
  "ABCDEFGHIJKLMNOPQRSTUVWXYZabcdefghijklmnopqrstuvwxyz0123456789+/".data.getD n 'A'

/-- Base64-encode a byte list, without `=` padding characters. -/
def b64NoPad : List Nat → List Char
  | b0 :: b1 :: b2 :: rest =>
    b64Char (b0 / 4) :: b64Char (b0 % 4 * 16 + b1 / 16) ::
    b64Char (b1 % 16 * 4 + b2 / 64) :: b64Char (b2 % 64) :: b64NoPad rest
  | [b0, b1] => [b64Char (b0 / 4), b64Char (b0 % 4 * 16 + b1 / 16), b64Char (b1 % 16 * 4)]
  | [b0] => [b64Char (b0 / 4), b64Char (b0 % 4 * 16)]
  | [] => []

/-- Modelled from the spec: `encode_base64(s, utf16_variant)` — base64 of
the (optionally UTF-16 re-encoded) bytes of `s`, producing exactly one
string; the trailing character group that would depend on the bytes
following `s` inside a larger stream is trimmed, as calibrated against
the `test_base64_utf16le` expectations in `field.rs`. -/
def encode_base64 (s : String) (u : Option Utf16Modifier) : String :=
  let data := stringBytes s u
  let enc := b64NoPad data
  String.mk (enc.take (enc.length - (if data.length % 3 == 0 then 0 else 1)))

/-- Modelled from the spec: `encode_base64_offset(s, utf16_variant)` —
three alignment variants: the input is padded with 0, 1 and 2 leading
filler bytes, each padded form is base64-encoded, and the unstable
leading/trailing character groups are trimmed, as calibrated against the
`test_base64offset_utf16le` expectations in `field.rs`. -/
def encode_base64_offset (s : String) (u : Option Utf16Modifier) : List String :=
  let data := stringBytes s u
  (List.range 3).map (fun i =>
    let padded := List.replicate i 0 ++ data
    let enc := b64NoPad padded
    let lead := [0, 2, 3].getD i 0
    let cut := if padded.length % 3 == 0 then 0 else 1
    String.mk ((enc.drop lead).take (enc.length - lead - cut)))

/-- Modelled from the spec: the recognized command-line switch prefix
characters for `windash` — the plain dash and slash plus the Unicode
dashes used for this purpose. -/
def windashChars : List Char := ['-', '/', '–', '—', '―']

/-- Modelled from the spec: `windash_variations(s)` — when `s` starts
with a recognized switch prefix, the original plus one variant per other
recognized prefix substituted for the leading character; otherwise the
single-element result `[s]`. -/
def windash_variations (s : String) : List String :=
  match s.data with
  | [] => [s]
  | c :: rest =>
    if windashChars.contains c then
      s :: ((windashChars.filter (fun d => d != c)).map
        (fun d => String.mk (d :: rest)))
    else [s]

/-! ## Modifier (`modifier.rs` is not part of the provided source).

`field.rs` consumes the fields `match_modifier`, `value_transformer`,
`exists`, `fieldref`, `cased`, `match_all` and `collection`, and the
constructors listed below; the structure is modelled from the spec data
model.  The Rust field `exists` is spelled `exists_` because `exists` is
a reserved word in Lean. -/

/-- The match-kind modifier (constructors as used in `field.rs`). -/
inductive MatchModifier where
  | StartsWith | EndsWith | Contains | Cidr | Re | Lt | Lte | Gt | Gte
deriving DecidableEq, Repr

/-- The value transformer (constructors `Base64`, `Base64offset` and
`Windash` as used in `field.rs`). -/
inductive ValueTransformer where
  | Base64 (u : Option Utf16Modifier) : ValueTransformer
  | Base64offset (u : Option Utf16Modifier) : ValueTransformer
  | Windash : ValueTransformer
deriving DecidableEq, Repr

/-- The collection-match spelling of the quantifier (`field.rs` tests the
`All` variant). -/
inductive CollectionMatch where
  | All
deriving DecidableEq, Repr

/-- Modelled from the spec: the parsed, validated modifier set consumed
by `Field::bootstrap` and `Field::evaluate` (`modifier.rs` is missing). -/
structure Modifier where
  match_modifier : Option MatchModifier
  value_transformer : Option ValueTransformer
  exists_ : Option Bool
  fieldref : Bool
  cased : Bool
  match_all : Bool
  collection : Option CollectionMatch
deriving DecidableEq, Repr

/-! ## Compiled field values (`value.rs` is not part of the provided
source; the constructors `Base`, `Cidr`, `Regex` and `WildcardPattern`
are those constructed and matched in `field.rs`). -/

/-- A compiled comparand, one of the four forms of the spec data model. -/
inductive FieldValue where
  | Base (v : BaseValue) : FieldValue
  | Cidr (c : IpCidr) : FieldValue
  | Regex (r : Regex) : FieldValue
  | WildcardPattern (toks : List WildcardToken) : FieldValue
deriving DecidableEq, Repr

/-- Modelled from the spec: `FieldValue::as_string` — the stringify step;
a non-string value fails with a type error (`value.rs` is missing). -/
def FieldValue.as_string : FieldValue → Except ParserError String
  | FieldValue.Base (BaseValue.String s) => Except.ok s
  | _ => Except.error ParserError.InvalidValueType

/-! ## Events (`event.rs` is not part of the provided source).

`field.rs` consumes `Event::get` and the `EventValue` constructors
`Value` and `Sequence`; the spec describes an event value as a single
scalar or a sequence of scalars. -/

/-- Modelled from the spec: an event attribute value — a single scalar or
a sequence of scalars (`event.rs` is missing). -/
inductive EventValue where
  | Value (v : BaseValue) : EventValue
  | Sequence (vs : List BaseValue) : EventValue
deriving DecidableEq, Repr

/-- Modelled from the spec: an event — a finite map from attribute names
to event values (`event.rs` is missing). -/
structure Event where
  entries : List (String × EventValue)
deriving DecidableEq, Repr

/-- Modelled from the spec: `Event::get` — look up an attribute by name. -/
def Event.get (e : Event) (name : String) : Option EventValue :=
  (e.entries.find? (fun p => p.1 == name)).map (fun p => p.2)

/-! ## The scalar match predicate (`value.rs`/`event.rs` are not part of
the provided source). -/

/-- Type-strict natural ordering of scalars: numbers compare numerically,
strings lexicographically; a kind mismatch yields `none`. -/
def ordBase : BaseValue → BaseValue → Option Ordering
  | BaseValue.Int a, BaseValue.Int b => some (compare a b)
  | BaseValue.String a, BaseValue.String b => some (charsCompare a.data b.data)
  | BaseValue.Boolean a, BaseValue.Boolean b => some (compare a b)
  | BaseValue.Null, BaseValue.Null => some Ordering.eq
  | _, _ => none

/-- Ordering test helper: a kind mismatch is a non-match. -/
def ordTest (item b : BaseValue) (p : Ordering → Bool) : Bool :=
  match ordBase item b with
  | some o => p o
  | none => false

/-- Scalar equality, case-folding strings unless `cased` is set; a kind
mismatch is a non-match. -/
def eqBase (cased : Bool) : BaseValue → BaseValue → Bool
  | BaseValue.String a, BaseValue.String b => strFold cased a == strFold cased b
  | BaseValue.Int a, BaseValue.Int b => a == b
  | BaseValue.Boolean a, BaseValue.Boolean b => a == b
  | BaseValue.Null, BaseValue.Null => true
  | _, _ => false

/-- Modelled from the spec: the value-kind-appropriate test of an event
scalar against a comparand — wildcard-pattern match, CIDR containment,
regex search, ordering comparison or scalar equality, respecting `cased`
(the `matches` predicate of the missing `value.rs`/`event.rs`). -/
def BaseValue.matches (item : BaseValue) (cmp : FieldValue) (m : Modifier) : Bool :=
  match cmp with
  | FieldValue.WildcardPattern toks =>
    match item with
    | BaseValue.String s => wildMatch toks (strFold m.cased s).data
    | _ => false
  | FieldValue.Cidr c =>
    match item with
    | BaseValue.String s => c.containsStr s
    | _ => false
  | FieldValue.Regex r =>
    match item with
    | BaseValue.String s => r.search s
    | _ => false
  | FieldValue.Base b =>
    match m.match_modifier with
    | some MatchModifier.Lt => ordTest item b (fun o => o == Ordering.lt)
    | some MatchModifier.Lte => ordTest item b (fun o => o != Ordering.gt)
    | some MatchModifier.Gt => ordTest item b (fun o => o == Ordering.gt)
    | some MatchModifier.Gte => ordTest item b (fun o => o != Ordering.lt)
    | some MatchModifier.StartsWith =>
      match item, b with
      | BaseValue.String s, BaseValue.String p =>
        strStarts (strFold m.cased s) (strFold m.cased p)
      | _, _ => false
    | some MatchModifier.EndsWith =>
      match item, b with
      | BaseValue.String s, BaseValue.String p =>
        strEnds (strFold m.cased s) (strFold m.cased p)
      | _, _ => false
    | some MatchModifier.Contains =>
      match item, b with
      | BaseValue.String s, BaseValue.String p =>
        strContains (strFold m.cased s) (strFold m.cased p)
      | _, _ => false
    | some MatchModifier.Cidr =>
      match item, b with
      | BaseValue.String s, BaseValue.String cs =>
        match IpCidr.from_str cs with
        | Except.ok c => c.containsStr s
        | Except.error _ => false
      | _, _ => false
    | some MatchModifier.Re =>
      match item, b with
      | BaseValue.String s, BaseValue.String p => strContains s p
      | _, _ => false
    | none => eqBase m.cased item b

/-! ## Field and the value-preparation pipeline (`Field::bootstrap`,
translated from `src/field.rs` lines 76-168).

The Rust method mutates `self` sequentially and returns at the first
error; here each stage is an explicit function on `Field` returning
`Except`, and `bootstrap` chains them in the same fixed order. -/

namespace Tau

/-- A named match specification (`struct Field` of `field.rs`). -/
structure Field where
  name : String
  values : List FieldValue
  modifier : Modifier
deriving DecidableEq, Repr

/-- Exists normalization (`field.rs` lines 81-90): when the exists
modifier is set, require exactly one boolean value, and replace the flag
with that literal boolean; reject otherwise. -/
def existsStep (f : Field) : Except ParserError Field :=
  match f.modifier.exists_ with
  | none => Except.ok f
  | some _ =>
    match f.values with
    | [v] =>
      match v with
      | FieldValue.Base (BaseValue.Boolean b) =>
        Except.ok { f with modifier := { f.modifier with exists_ := some b } }
      | _ => Except.error ParserError.InvalidValueForExists
    | _ => Except.error ParserError.InvalidValueForExists

/-- The expansion of one stringified value under a transformer
(`field.rs` lines 97-111): `Base64` pushes one encoded string,
`Base64offset` and `Windash` extend with every variant, in order. -/
def transformOne (t : ValueTransformer) (s : String) : List FieldValue :=
  match t with
  | ValueTransformer.Base64 u =>
    [FieldValue.Base (BaseValue.String (encode_base64 s u))]
  | ValueTransformer.Base64offset u =>
    (encode_base64_offset s u).map (fun x => FieldValue.Base (BaseValue.String x))
  | ValueTransformer.Windash =>
    (windash_variations s).map (fun x => FieldValue.Base (BaseValue.String x))

/-- Transform expansion over the value list (`field.rs` lines 92-115):
every value is stringified (the first non-string value aborts with its
type error) and the list is replaced by the concatenation of the
expansions, preserving input order. -/
def transformValues (t : ValueTransformer) : List FieldValue → Except ParserError (List FieldValue)
  | [] => Except.ok []
  | v :: rest =>
    match v.as_string with
    | Except.error e => Except.error e
    | Except.ok s =>
      match transformValues t rest with
      | Except.error e => Except.error e
      | Except.ok vs => Except.ok (transformOne t s ++ vs)

/-- The transform stage of `bootstrap`: a no-op when no value transformer
is set. -/
def transformStep (f : Field) : Except ParserError Field :=
  match f.modifier.value_transformer with
  | none => Except.ok f
  | some t =>
    match transformValues t f.values with
    | Except.error e => Except.error e
    | Except.ok vs => Except.ok { f with values := vs }

/-- Per-value compilation driven by the match modifier (`field.rs` lines
118-142, body of the loop): string modifiers require a string value, the
CIDR and regex modifiers compile the stringified value, and the ordering
modifiers and the plain path leave the value unchanged. -/
def compileOne (name : String) (mm : Option MatchModifier) (v : FieldValue) :
    Except ParserError FieldValue :=
  match mm with
  | some MatchModifier.StartsWith | some MatchModifier.EndsWith
  | some MatchModifier.Contains =>
    match v with
    | FieldValue.Base (BaseValue.String _) => Except.ok v
    | _ => Except.error (ParserError.InvalidValueForStringModifier name)
  | some MatchModifier.Cidr =>
    match v.as_string with
    | Except.error e => Except.error e
    | Except.ok s =>
      match IpCidr.from_str s with
      | Except.ok ip => Except.ok (FieldValue.Cidr ip)
      | Except.error err => Except.error (ParserError.IPParsing s err)
  | some MatchModifier.Re =>
    match v.as_string with
    | Except.error e => Except.error e
    | Except.ok s =>
      match Regex.new s with
      | Except.ok re => Except.ok (FieldValue.Regex re)
      | Except.error err => Except.error (ParserError.RegexParsing err)
  | _ => Except.ok v

/-- The compilation loop over the value list (`field.rs` lines 118-142),
stopping at the first error. -/
def compileList (name : String) (mm : Option MatchModifier) :
    List FieldValue → Except ParserError (List FieldValue)
  | [] => Except.ok []
  | v :: rest =>
    match compileOne name mm v with
    | Except.error e => Except.error e
    | Except.ok v' =>
      match compileList name mm rest with
      | Except.error e => Except.error e
      | Except.ok vs => Except.ok (v' :: vs)

/-- The `order_modifier_provided` flag of `field.rs` lines 117-142: set
exactly when the match modifier is an ordering modifier and the loop ran
at least once, i.e. the value list is non-empty. -/
def orderProvided (mm : Option MatchModifier) (vals : List FieldValue) : Bool :=
  match mm with
  | some MatchModifier.Lt | some MatchModifier.Lte
  | some MatchModifier.Gt | some MatchModifier.Gte => !vals.isEmpty
  | _ => false

/-- Wildcard compilation of one value (`field.rs` lines 145-163): a
string value is tokenized (case-folded unless `cased`) with the anchor
wildcards spliced in per the match modifier — a trailing `Star` for
`StartsWith`, a leading `Star` for `EndsWith`, both for `Contains` — and
replaced by the compiled pattern; any other value is left unchanged. -/
def wildcardOne (m : Modifier) (v : FieldValue) : FieldValue :=
  match v with
  | FieldValue.Base (BaseValue.String s) =>
    let tokens := tokenize s (!m.cased)
    FieldValue.WildcardPattern
      (match m.match_modifier with
        | some MatchModifier.StartsWith => tokens ++ [WildcardToken.Star]
        | some MatchModifier.EndsWith => WildcardToken.Star :: tokens
        | some MatchModifier.Contains =>
          WildcardToken.Star :: (tokens ++ [WildcardToken.Star])
        | _ => tokens)
  | _ => v

/-- The wildcard-compilation stage (`field.rs` lines 144-165): performed
only when the field is not `fieldref` and no ordering modifier was used. -/
def wildcardStep (f : Field) (omp : Bool) : Field :=
  if !f.modifier.fieldref && !omp then
    { f with values := f.values.map (wildcardOne f.modifier) }
  else f

/-- `Field::bootstrap` (`field.rs` lines 76-168): the fixed-order value
preparation pipeline — non-empty check, exists normalization, transform
expansion, per-value compilation, wildcard compilation — short-circuiting
on the first error. -/
def Field.bootstrap (f : Field) : Except ParserError Field :=
  if f.values.isEmpty then Except.error (ParserError.EmptyValues f.name)
  else
    match existsStep f with
    | Except.error e => Except.error e
    | Except.ok f1 =>
      match transformStep f1 with
      | Except.error e => Except.error e
      | Except.ok f2 =>
        match compileList f2.name f2.modifier.match_modifier f2.values with
        | Except.error e => Except.error e
        | Except.ok vs =>
          Except.ok (wildcardStep { f2 with values := vs }
            (orderProvided f2.modifier.match_modifier f2.values))

/-! ## The evaluation engine (`Field::evaluate`, translated from
`src/field.rs` lines 170-219). -/

/-- The quantifier of `field.rs` line 179:
`require_all = match_all || collection == All`. -/
def requireAll (m : Modifier) : Bool :=
  m.match_all || m.collection == some CollectionMatch.All

/-- Outcome of resolving one comparand (`field.rs` lines 183-199): the
compiled value itself when `fieldref` is unset; under `fieldref`, the
event attribute named by the value's string form — a failed lookup or a
non-scalar result aborts the whole evaluation with `false`, and a
non-`Base` value is skipped (the unreachable `continue` of the source). -/
inductive CmpResult where
  | abort : CmpResult
  | skip : CmpResult
  | cmp (v : FieldValue) : CmpResult
deriving DecidableEq, Repr

/-- Resolve the comparand for one value (`field.rs` lines 183-199). -/
def resolveCmp (m : Modifier) (event : Event) (val : FieldValue) : CmpResult :=
  if m.fieldref then
    match val with
    | FieldValue.Base b =>
      let looked :=
        match b with
        | BaseValue.String s => event.get s
        | _ => event.get b.value_to_string
      match looked with
      | some (EventValue.Value v) => CmpResult.cmp (FieldValue.Base v)
      | _ => CmpResult.abort
    | _ => CmpResult.skip
  else CmpResult.cmp val

/-- Whether the test fires for one comparand (`field.rs` lines 201-206):
a sequence-valued attribute fires when any element matches, a scalar
fires when it matches. -/
def firedOf (ev : EventValue) (cmp : FieldValue) (m : Modifier) : Bool :=
  match ev with
  | EventValue.Sequence seq => seq.any (fun item => item.matches cmp m)
  | EventValue.Value v => v.matches cmp m

/-- The evaluation loop (`field.rs` lines 182-218): `acc` is the running
`require_any_fired`; a firing test returns `true` at once under the
"any" quantifier, a non-firing test returns `false` at once under the
"all" quantifier, and after the loop the result is
`require_all && require_any_fired`. -/
def evalValues (m : Modifier) (event : Event) (ev : EventValue) (ra : Bool) :
    List FieldValue → Bool → Bool
  | [], acc => ra && acc
  | val :: rest, acc =>
    match resolveCmp m event val with
    | CmpResult.abort => false
    | CmpResult.skip => evalValues m event ev ra rest acc
    | CmpResult.cmp c =>
      let fired := firedOf ev c m
      if fired then
        if !ra then true else evalValues m event ev ra rest true
      else if ra then false
      else evalValues m event ev ra rest acc

/-- `Field::evaluate` (`field.rs` lines 170-219): absent attribute —
`true` only under `exists == Some(false)`; `exists == Some(true)` —
`true` immediately; otherwise the quantifier loop over the compiled
values. -/
def Field.evaluate (f : Field) (event : Event) : Bool :=
  match event.get f.name with
  | none => f.modifier.exists_ == some false
  | some event_value =>
    if f.modifier.exists_ == some true then true
    else evalValues f.modifier event event_value (requireAll f.modifier) f.values false

/-! ## Form predicates and evaluation helpers used by the theorems -/

/-- The value is in uncompiled `Base` form. -/
def isBase : FieldValue → Bool
  | FieldValue.Base _ => true
  | _ => false

/-- The value is a `Base` string. -/
def isBaseString : FieldValue → Bool
  | FieldValue.Base (BaseValue.String _) => true
  | _ => false

/-- The value is a compiled CIDR network. -/
def isCidrV : FieldValue → Bool
  | FieldValue.Cidr _ => true
  | _ => false

/-- The value is a compiled regular expression. -/
def isRegexV : FieldValue → Bool
  | FieldValue.Regex _ => true
  | _ => false

/-- The value is a compiled wildcard pattern. -/
def isWild : FieldValue → Bool
  | FieldValue.WildcardPattern _ => true
  | _ => false

/-- The match modifier is one of the ordering modifiers. -/
def mmIsOrdering : Option MatchModifier → Bool
  | some MatchModifier.Lt | some MatchModifier.Lte
  | some MatchModifier.Gt | some MatchModifier.Gte => true
  | _ => false

/-- The resolution produced a comparand (neither abort nor skip). -/
def resolveIsCmp : CmpResult → Bool
  | CmpResult.cmp _ => true
  | _ => false

/-- The test outcome of one value of the list: the fired status of its
resolved comparand (`false` when resolution does not yield one). -/
def firesAt (m : Modifier) (event : Event) (ev : EventValue) (val : FieldValue) : Bool :=
  match resolveCmp m event val with
  | CmpResult.cmp c => firedOf ev c m
  | _ => false

/-- The loop passes over this value without returning: its comparand
resolves and its fired status equals the quantifier (fired under "all",
not fired under "any"). -/
def reachThrough (m : Modifier) (event : Event) (ev : EventValue) (val : FieldValue) : Bool :=
  match resolveCmp m event val with
  | CmpResult.cmp c => firedOf ev c m == requireAll m
  | _ => false

/-- A plain modifier set: no modifiers at all (used by concrete
instances). -/
def plainModifier : Modifier :=
  { match_modifier := none, value_transformer := none, exists_ := none,
    fieldref := false, cased := false, match_all := false, collection := none }

/-! ## Claim C8: empty value list -/

/-- C8: for every name and modifier set, a Field with an empty value
list fails `bootstrap` with `EmptyValues` carrying the field name; the
non-empty check precedes every other bootstrap check (the theorem holds
for an arbitrary modifier set, in particular for an exists field). -/
theorem empty_values_error (f : Field) (h : f.values = []) :
    f.bootstrap = Except.error (ParserError.EmptyValues f.name) := by
  simp [Field.bootstrap, h]

/-- Witness for C8: a concrete exists field with zero values reports
`EmptyValues`, not `InvalidValueForExists`. -/
theorem empty_values_error_witness :
    (({ name := "test", values := [],
        modifier := { plainModifier with exists_ := some true } } : Field).bootstrap
      = Except.error (ParserError.EmptyValues "test")) :=
  empty_values_error _ rfl

/-! ## Claim C10: fields with no values and no exists flag -/

/-- C10: a Field whose values list is empty and whose exists modifier is
unset (as produced by the `FromStr` implementation, which performs no
bootstrap) evaluates to `false` on every event, whether or not the named
attribute is present. -/
theorem empty_field_never_matches (f : Field) (hv : f.values = [])
    (hex : f.modifier.exists_ = none) (event : Event) :
    f.evaluate event = false := by
  unfold Field.evaluate
  cases hget : event.get f.name with
  | none => simp [hex]
  | some ev => simp [hex, hv, evalValues]

/-- Witness for C10: a concrete empty field on a present and on an
absent attribute. -/
theorem empty_field_never_matches_witness :
    (({ name := "t", values := [], modifier := plainModifier } : Field).evaluate
      { entries := [("t", EventValue.Value (BaseValue.String "x"))] } = false)
    ∧ (({ name := "t", values := [], modifier := plainModifier } : Field).evaluate
      { entries := [] } = false) :=
  ⟨empty_field_never_matches _ rfl rfl _, empty_field_never_matches _ rfl rfl _⟩

/-! ## Claim C7: exists normalization -/

/-- C7: with the exists modifier present, `bootstrap` fails with
`InvalidValueForExists` unless the value list is exactly one boolean
literal; when it is, the exists normalization step replaces the flag
with that literal boolean and succeeds. -/
theorem exists_normalization (f : Field) (hne : f.values ≠ [])
    (hex : f.modifier.exists_.isSome = true) :
    (∀ b, f.values = [FieldValue.Base (BaseValue.Boolean b)] →
      existsStep f = Except.ok { f with modifier := { f.modifier with exists_ := some b } })
    ∧ ((∀ b, f.values ≠ [FieldValue.Base (BaseValue.Boolean b)]) →
      f.bootstrap = Except.error ParserError.InvalidValueForExists) := by
  obtain ⟨a, ha⟩ := Option.isSome_iff_exists.mp hex
  constructor
  · intro b hb
    simp [existsStep, ha, hb]
  · intro hnb
    have hstep : existsStep f = Except.error ParserError.InvalidValueForExists := by
      unfold existsStep
      rw [ha]
      rcases hv : f.values with _ | ⟨v, rest⟩
      · exact absurd hv hne
      · rcases rest with _ | ⟨w, rest'⟩
        · rcases v with bv | c | r | toks
          · rcases bv with b | s | i | _
            · exact absurd hv (hnb b)
            · rfl
            · rfl
            · rfl
          · rfl
          · rfl
          · rfl
        · rfl
    have hemp : f.values.isEmpty = false := by
      rcases hv : f.values with _ | ⟨v, rest⟩
      · exact absurd hv hne
      · rfl
    simp [Field.bootstrap, hemp, hstep]

/-- A concrete exists field carrying one non-matching boolean literal
(used by the witness of the exists-normalization theorem). -/
def existsFieldFalse : Field :=
  { name := "t", values := [FieldValue.Base (BaseValue.Boolean false)],
    modifier := { plainModifier with exists_ := some true } }

/-- Witness for C7: the exists-normalization theorem applied at a
concrete field with exactly one boolean value. -/
theorem exists_normalization_witness :
    ((∀ b, existsFieldFalse.values = [FieldValue.Base (BaseValue.Boolean b)] →
      existsStep existsFieldFalse = Except.ok { existsFieldFalse with
        modifier := { existsFieldFalse.modifier with exists_ := some b } })
    ∧ ((∀ b, existsFieldFalse.values ≠ [FieldValue.Base (BaseValue.Boolean b)]) →
      existsFieldFalse.bootstrap = Except.error ParserError.InvalidValueForExists)) :=
  exists_normalization existsFieldFalse (by decide) rfl

/-! ## Claim C9: sequence-valued event attributes -/

/-- C9: when the event attribute holds a sequence of scalars, a
comparand's test fires iff at least one element of the sequence matches
it; consequently a single-value field over such an attribute evaluates
to `true` iff some element matches its comparand. -/
theorem sequence_any_element (m : Modifier) (seq : List BaseValue) (cmp : FieldValue) :
    (firedOf (EventValue.Sequence seq) cmp m = true ↔
      ∃ item ∈ seq, item.matches cmp m = true)
    ∧ (∀ (f : Field) (event : Event) (v : FieldValue),
        f.values = [v] → f.modifier.fieldref = false →
        f.modifier.exists_ = none →
        event.get f.name = some (EventValue.Sequence seq) →
        (f.evaluate event = true ↔ ∃ item ∈ seq, item.matches v f.modifier = true)) := by
  constructor
  · simp [firedOf, List.any_eq_true]
  · intro f event v hv hfr hex hget
    unfold Field.evaluate
    rw [hget]
    have hres : resolveCmp f.modifier event v = CmpResult.cmp v := by
      simp [resolveCmp, hfr]
    cases hfire : firedOf (EventValue.Sequence seq) v f.modifier with
    | true =>
      cases hra : requireAll f.modifier with
      | true => simp_all [evalValues, firedOf, List.any_eq_true]
      | false => simp_all [evalValues, firedOf, List.any_eq_true]
    | false =>
      cases hra : requireAll f.modifier with
      | true => simp_all [evalValues, firedOf, List.any_eq_true]
      | false => simp_all [evalValues, firedOf, List.any_eq_true]

/-- A concrete single-value field over a sequence attribute (used by the
witness of the sequence theorem). -/
def seqField : Field :=
  { name := "t", values := [FieldValue.Base (BaseValue.Int 2)],
    modifier := plainModifier }

/-- A concrete event whose `t` attribute is a sequence (used by the
witness of the sequence theorem). -/
def seqEvent : Event :=
  { entries := [("t", EventValue.Sequence [BaseValue.Int 1, BaseValue.Int 2])] }

/-- Witness for C9: the sequence theorem applied at a concrete field and
event — the second element matches, so the field evaluates to `true`. -/
theorem sequence_any_element_witness : seqField.evaluate seqEvent = true :=
  ((sequence_any_element plainModifier [BaseValue.Int 1, BaseValue.Int 2]
      (FieldValue.Base (BaseValue.Int 2))).2 seqField seqEvent
      (FieldValue.Base (BaseValue.Int 2)) rfl rfl rfl rfl).mpr
    ⟨BaseValue.Int 2, by decide, by decide⟩

/-! ## Claim C1: quantifier semantics of the evaluation loop -/

/-- Closed form of the evaluation loop when every value's comparand
resolves: under "any" the loop computes whether any test fires, under
"all" it computes whether all tests fire together with the final
`require_any_fired` accumulator. -/
theorem evalValues_closed_form (m : Modifier) (event : Event) (ev : EventValue)
    (ra : Bool) :
    ∀ (vals : List FieldValue) (acc : Bool),
      vals.all (fun v => resolveIsCmp (resolveCmp m event v)) = true →
      evalValues m event ev ra vals acc =
        (if ra then vals.all (firesAt m event ev) && (acc || vals.any (firesAt m event ev))
         else vals.any (firesAt m event ev)) := by
  intro vals
  induction vals with
  | nil =>
    intro acc _
    cases ra <;> simp [evalValues]
  | cons v rest ih =>
    intro acc hres
    rw [List.all_cons] at hres
    have hv := (Bool.and_eq_true _ _).mp hres
    cases hr : resolveCmp m event v with
    | abort => simp [resolveIsCmp, hr] at hv
    | skip => simp [resolveIsCmp, hr] at hv
    | cmp c =>
      have hfa : firesAt m event ev v = firedOf ev c m := by
        simp [firesAt, hr]
      cases hfire : firedOf ev c m with
      | true =>
        cases ra with
        | false => simp [evalValues, hr, hfire, hfa]
        | true =>
          rw [evalValues]
          rw [hr]
          simp only [hfire, if_true, Bool.not_true, Bool.false_eq_true, if_false]
          rw [ih true hv.2]
          simp [hfa, hfire]
      | false =>
        cases ra with
        | false =>
          rw [evalValues]
          rw [hr]
          simp only [hfire]
          rw [ih acc hv.2]
          simp [hfa, hfire]
        | true => simp [evalValues, hr, hfire, hfa]

/-- C1: for a field evaluated on an event where the named attribute is
present, with `exists` not `Some(true)` and every value's comparand
resolving (always so without `fieldref`; the aborting case is the
subject of the field-reference claim): under the "any" quantifier the
result is `true` iff some value's test fires — `true` at the first
firing value, `false` after the loop otherwise — and under the "all"
quantifier the result is `false` at the first non-firing value and
otherwise `true` iff at least one comparand fired. -/
theorem evaluate_quantifier_spec (f : Field) (event : Event) (ev : EventValue)
    (hget : event.get f.name = some ev)
    (hex : (f.modifier.exists_ == some true) = false)
    (hres : f.values.all (fun v => resolveIsCmp (resolveCmp f.modifier event v)) = true) :
    f.evaluate event =
      (if requireAll f.modifier
       then f.values.all (firesAt f.modifier event ev) &&
            f.values.any (firesAt f.modifier event ev)
       else f.values.any (firesAt f.modifier event ev)) := by
  unfold Field.evaluate
  rw [hget]
  simp only [hex, Bool.false_eq_true, if_false]
  rw [evalValues_closed_form f.modifier event ev (requireAll f.modifier) f.values false hres]
  simp

/-- A concrete plain two-value field (used by the witness of the
quantifier theorem). -/
def quantField : Field :=
  { name := "t",
    values := [FieldValue.Base (BaseValue.Int 1), FieldValue.Base (BaseValue.Int 2)],
    modifier := plainModifier }

/-- A concrete event for the quantifier witness. -/
def quantEvent : Event :=
  { entries := [("t", EventValue.Value (BaseValue.Int 2))] }

/-- Witness for C1: the quantifier theorem applied at a concrete field
and event (the second value fires, so the "any" result is `true`). -/
theorem evaluate_quantifier_spec_witness :
    quantField.evaluate quantEvent =
      (if requireAll quantField.modifier
       then quantField.values.all
              (firesAt quantField.modifier quantEvent (EventValue.Value (BaseValue.Int 2))) &&
            quantField.values.any
              (firesAt quantField.modifier quantEvent (EventValue.Value (BaseValue.Int 2)))
       else quantField.values.any
              (firesAt quantField.modifier quantEvent (EventValue.Value (BaseValue.Int 2)))) :=
  evaluate_quantifier_spec quantField quantEvent (EventValue.Value (BaseValue.Int 2))
    rfl rfl (by decide)

/-! ## Claim C2: hard short-circuit on failed field references -/

/-- The evaluation loop returns `false` as soon as it reaches a value
whose comparand resolution aborts, for any accumulator value and either
quantifier: once the loop passes over the earlier values (fired under
"all", not fired under "any"), a failed reference resolution yields
`false` for the whole field. -/
theorem evalValues_abort (m : Modifier) (event : Event) (ev : EventValue)
    (bad : FieldValue) (rest : List FieldValue)
    (habort : resolveCmp m event bad = CmpResult.abort) :
    ∀ (pre : List FieldValue) (acc : Bool),
      pre.all (reachThrough m event ev) = true →
      evalValues m event ev (requireAll m) (pre ++ bad :: rest) acc = false := by
  intro pre
  induction pre with
  | nil =>
    intro acc _
    simp [evalValues, habort]
  | cons v pre' ih =>
    intro acc hpre
    rw [List.all_cons] at hpre
    have hv := (Bool.and_eq_true _ _).mp hpre
    cases hr : resolveCmp m event v with
    | abort => simp [reachThrough, hr] at hv
    | skip => simp [reachThrough, hr] at hv
    | cmp c =>
      have hfire : firedOf ev c m = requireAll m := by
        have := hv.1
        simpa [reachThrough, hr] using this
      rw [List.cons_append, evalValues, hr]
      simp only [hfire]
      cases hra : requireAll m with
      | true => simpa [hra] using ih true hv.2
      | false => simpa [hra] using ih acc hv.2

/-- C2: for a `fieldref` field evaluated on an event with the named
attribute present and `exists` not `Some(true)`, if the loop reaches a
value whose referenced attribute is absent or not a plain scalar
(resolution aborts), `evaluate` returns `false` for the entire field —
regardless of the quantifier and regardless of earlier values having
fired (under "all" every earlier value may have fired and the result is
still `false`). -/
theorem fieldref_failure_aborts (f : Field) (event : Event) (ev : EventValue)
    (pre : List FieldValue) (bad : FieldValue) (rest : List FieldValue)
    (_hfr : f.modifier.fieldref = true)
    (hget : event.get f.name = some ev)
    (hex : (f.modifier.exists_ == some true) = false)
    (hvals : f.values = pre ++ bad :: rest)
    (habort : resolveCmp f.modifier event bad = CmpResult.abort)
    (hpre : pre.all (reachThrough f.modifier event ev) = true) :
    f.evaluate event = false := by
  unfold Field.evaluate
  rw [hget]
  simp only [hex, Bool.false_eq_true, if_false]
  rw [hvals]
  exact evalValues_abort f.modifier event ev bad rest habort pre false hpre

/-- A concrete `fieldref` + `all` field whose second reference is
missing from the event (used by the witness of the abort theorem). -/
def refField : Field :=
  { name := "t",
    values := [FieldValue.Base (BaseValue.String "r1"),
               FieldValue.Base (BaseValue.String "missing")],
    modifier := { plainModifier with fieldref := true, match_all := true } }

/-- A concrete event for the abort witness: the first reference resolves
and its test fires, the second reference is absent. -/
def refEvent : Event :=
  { entries := [("t", EventValue.Value (BaseValue.String "x")),
                ("r1", EventValue.Value (BaseValue.String "x"))] }

/-- Witness for C2: the abort theorem applied at a concrete field where
the earlier value already fired under "all", yet the failed reference
still forces `false`. -/
theorem fieldref_failure_aborts_witness : refField.evaluate refEvent = false :=
  fieldref_failure_aborts refField refEvent (EventValue.Value (BaseValue.String "x"))
    [FieldValue.Base (BaseValue.String "r1")]
    (FieldValue.Base (BaseValue.String "missing")) []
    rfl rfl rfl rfl (by decide) (by decide)

/-! ## Claim C3: the exists modifier at evaluation time -/

/-- Singleton evaluation loop: with one resolvable comparand the loop
result is exactly its fired status, under either quantifier. -/
theorem evalValues_singleton (m : Modifier) (event : Event) (ev : EventValue)
    (ra : Bool) (v : FieldValue)
    (hres : resolveCmp m event v = CmpResult.cmp v) :
    evalValues m event ev ra [v] false = firedOf ev v m := by
  cases hfire : firedOf ev v m <;> cases ra <;> simp [evalValues, hres, hfire]

/-- A concrete exists field whose retained literal is `false` (input to
`bootstrap`; the initial flag value is irrelevant, bootstrap replaces
it). -/
def existsLiteralField : Field :=
  { name := "test", values := [FieldValue.Base (BaseValue.Boolean false)],
    modifier := { plainModifier with exists_ := some true } }

/-- The compiled form of `existsLiteralField`: the flag is replaced by
the literal `false` and the boolean value is retained. -/
def existsCompiledField : Field :=
  { name := "test", values := [FieldValue.Base (BaseValue.Boolean false)],
    modifier := { plainModifier with exists_ := some false } }

/-- A concrete event whose `test` attribute is present with value
`false`. -/
def existsLiteralEvent : Event :=
  { entries := [("test", EventValue.Value (BaseValue.Boolean false))] }

/-- Counterexample to C3 as stated: a successfully compiled field with
`exists == Some(false)` evaluated on an event where the attribute IS
present returns `true` (the claim demands `false` whenever
`exists ≠ Some(true)`): the retained boolean literal is still compared
against the attribute value, and here it matches. -/
theorem exists_false_present_counterexample :
    existsLiteralField.bootstrap = Except.ok existsCompiledField ∧
    existsCompiledField.modifier.exists_ = some false ∧
    (existsLiteralEvent.get "test").isSome = true ∧
    existsCompiledField.evaluate existsLiteralEvent = true := by
  refine ⟨?_, rfl, rfl, rfl⟩
  rfl

/-- C3 amended: if the attribute is absent, evaluate returns `true` iff
`exists == Some(false)`; if present, `exists == Some(true)` returns
`true` immediately — but `exists == Some(false)` does NOT force `false`:
evaluation proceeds to the value loop, so the result equals the fired
status of the retained boolean literal against the attribute value. -/
theorem exists_modifier_evaluation (f : Field) (event : Event) (b : Bool)
    (hvals : f.values = [FieldValue.Base (BaseValue.Boolean b)])
    (hfr : f.modifier.fieldref = false) :
    (event.get f.name = none → f.evaluate event = (f.modifier.exists_ == some false))
    ∧ (∀ ev, event.get f.name = some ev → f.modifier.exists_ = some true →
        f.evaluate event = true)
    ∧ (∀ ev, event.get f.name = some ev → f.modifier.exists_ = some false →
        f.evaluate event =
          firedOf ev (FieldValue.Base (BaseValue.Boolean b)) f.modifier) := by
  refine ⟨?_, ?_, ?_⟩
  · intro h
    unfold Field.evaluate
    rw [h]
  · intro ev h hex
    unfold Field.evaluate
    rw [h]
    simp [hex]
  · intro ev h hex
    unfold Field.evaluate
    rw [h]
    simp only [hex, if_false]
    rw [hvals]
    refine Eq.trans ?_ (evalValues_singleton f.modifier event ev (requireAll f.modifier)
      (FieldValue.Base (BaseValue.Boolean b)) (by simp [resolveCmp, hfr]))
    rfl

/-- Witness for C3 amended: the amended theorem applied at the compiled
concrete field — present attribute, `exists == Some(false)`, result is
the fired status of the retained literal. -/
theorem exists_modifier_evaluation_witness :
    existsCompiledField.evaluate existsLiteralEvent =
      firedOf (EventValue.Value (BaseValue.Boolean false))
        (FieldValue.Base (BaseValue.Boolean false)) existsCompiledField.modifier :=
  (exists_modifier_evaluation existsCompiledField existsLiteralEvent false rfl rfl).2.2
    (EventValue.Value (BaseValue.Boolean false)) rfl rfl

/-! ## Claim C6: transform expansion -/

/-- The string carried by a `Base` string value (`""` on other forms;
only applied under an all-strings hypothesis). -/
def baseStr : FieldValue → String
  | FieldValue.Base (BaseValue.String s) => s
  | _ => ""

/-- Stringification of a non-string value fails with the type error. -/
theorem as_string_not_string (v : FieldValue) (h : isBaseString v = false) :
    v.as_string = Except.error ParserError.InvalidValueType := by
  cases v with
  | Base b => cases b <;> simp_all [isBaseString, FieldValue.as_string]
  | Cidr c => rfl
  | Regex r => rfl
  | WildcardPattern t => rfl

/-- A value list containing a non-string value fails the transform
stage with some error. -/
theorem transformValues_error (t : ValueTransformer) (vals : List FieldValue)
    (h : vals.all isBaseString = false) :
    ∃ e, transformValues t vals = Except.error e := by
  induction vals with
  | nil => simp at h
  | cons v rest ih =>
    rw [List.all_cons, Bool.and_eq_false_iff] at h
    cases h with
    | inl hv =>
      exact ⟨ParserError.InvalidValueType, by
        simp [transformValues, as_string_not_string v hv]⟩
    | inr hrest =>
      obtain ⟨e, he⟩ := ih hrest
      cases hvs : isBaseString v with
      | false =>
        exact ⟨ParserError.InvalidValueType, by
          simp [transformValues, as_string_not_string v hvs]⟩
      | true =>
        rcases v with b | c | r | toks
        · rcases b with bb | s | i | _
          · simp [isBaseString] at hvs
          · exact ⟨e, by simp [transformValues, FieldValue.as_string, he]⟩
          · simp [isBaseString] at hvs
          · simp [isBaseString] at hvs
        · simp [isBaseString] at hvs
        · simp [isBaseString] at hvs
        · simp [isBaseString] at hvs

/-- C6: with a value transformer set, the transform stage stringifies
every value and replaces the list with the concatenation of each
value's expansion in input order; the `Base64` transformer contributes
exactly one output string per input, `Base64offset` exactly three; and a
field containing an unstringifiable value fails `bootstrap` with an
error. -/
theorem transform_expansion_spec (t : ValueTransformer) (vals : List FieldValue)
    (hs : vals.all isBaseString = true) :
    transformValues t vals =
      Except.ok ((vals.map (fun v => transformOne t (baseStr v))).flatten)
    ∧ (∀ s u, (transformOne (ValueTransformer.Base64 u) s).length = 1)
    ∧ (∀ s u, (transformOne (ValueTransformer.Base64offset u) s).length = 3)
    ∧ (∀ (f : Field) (w : ValueTransformer), f.modifier.value_transformer = some w →
        f.modifier.exists_ = none → f.values ≠ [] →
        f.values.all isBaseString = false →
        ∃ e, f.bootstrap = Except.error e) := by
  refine ⟨?_, ?_, ?_, ?_⟩
  · induction vals with
    | nil => simp [transformValues]
    | cons v rest ih =>
      rw [List.all_cons] at hs
      have hv := (Bool.and_eq_true _ _).mp hs
      rcases v with b | c | r | toks
      · rcases b with bb | s | i | _
        · simp [isBaseString] at hv
        · rw [transformValues]
          simp only [FieldValue.as_string]
          rw [ih hv.2]
          simp [baseStr]
        · simp [isBaseString] at hv
        · simp [isBaseString] at hv
      · simp [isBaseString] at hv
      · simp [isBaseString] at hv
      · simp [isBaseString] at hv
  · intro s u
    simp [transformOne]
  · intro s u
    simp [transformOne, encode_base64_offset]
  · intro f w hw hex hne hbad
    obtain ⟨e, he⟩ := transformValues_error w f.values hbad
    have hemp : f.values.isEmpty = false := by
      rcases hv : f.values with _ | ⟨v, rest⟩
      · exact absurd hv hne
      · rfl
    have hstep : existsStep f = Except.ok f := by
      simp [existsStep, hex]
    refine ⟨e, ?_⟩
    simp [Field.bootstrap, hemp, hstep, transformStep, hw, he]

/-- A concrete windash field carrying an unstringifiable numeric value
(used by the witness of the transform theorem). -/
def windashIntField : Field :=
  { name := "t", values := [FieldValue.Base (BaseValue.Int 5)],
    modifier := { plainModifier with value_transformer := some ValueTransformer.Windash } }

/-- Witness for C6: the transform-stage equation at a concrete
single-string value list under the base64-offset transformer, and the
bootstrap failure at a concrete field with a numeric value under
windash. -/
theorem transform_expansion_spec_witness :
    (transformValues (ValueTransformer.Base64offset none)
        [FieldValue.Base (BaseValue.String "ab")] =
      Except.ok ((([FieldValue.Base (BaseValue.String "ab")]).map
        (fun v => transformOne (ValueTransformer.Base64offset none) (baseStr v))).flatten))
    ∧ (∃ e, windashIntField.bootstrap = Except.error e) :=
  ⟨(transform_expansion_spec (ValueTransformer.Base64offset none)
      [FieldValue.Base (BaseValue.String "ab")] (by decide)).1,
   (transform_expansion_spec (ValueTransformer.Base64offset none)
      [FieldValue.Base (BaseValue.String "ab")] (by decide)).2.2.2
     windashIntField ValueTransformer.Windash rfl rfl (by decide) (by decide)⟩

/-! ## Structural lemmas about the bootstrap stages (shared by the
homogeneity and wildcard-compilation claims) -/

/-- A successful exists step only rewrites the `exists_` flag. -/
theorem existsStep_ok_shape (f f' : Field) (h : existsStep f = Except.ok f') :
    ∃ e, f' = { f with modifier := { f.modifier with exists_ := e } } := by
  unfold existsStep at h
  cases hex : f.modifier.exists_ with
  | none =>
    rw [hex] at h
    cases h
    exact ⟨f.modifier.exists_, rfl⟩
  | some a =>
    rw [hex] at h
    rcases hv : f.values with _ | ⟨v, rest⟩ <;> rw [hv] at h
    · cases h
    · rcases rest with _ | ⟨w, rest'⟩
      · rcases v with bv | c | r | toks
        · rcases bv with b | s | i | _
          · cases h
            exact ⟨some b, rfl⟩
          · cases h
          · cases h
          · cases h
        · cases h
        · cases h
        · cases h
      · cases h

/-- A successful transform step only rewrites the value list, to the
transform-expansion output when a transformer is set and to itself
otherwise. -/
theorem transformStep_ok_shape (f f' : Field) (h : transformStep f = Except.ok f') :
    ∃ vs, f' = { f with values := vs }
      ∧ (f.modifier.value_transformer = none → vs = f.values)
      ∧ (∀ t, f.modifier.value_transformer = some t →
          transformValues t f.values = Except.ok vs) := by
  cases htr : f.modifier.value_transformer with
  | none =>
    simp only [transformStep, htr] at h
    cases h
    exact ⟨f.values, rfl, fun _ => rfl, fun t ht => Option.noConfusion ht⟩
  | some t =>
    simp only [transformStep, htr] at h
    cases htv : transformValues t f.values with
    | error e =>
      rw [htv] at h
      cases h
    | ok vs =>
      rw [htv] at h
      cases h
      refine ⟨vs, rfl, ?_, ?_⟩
      · intro hn
        exact Option.noConfusion hn
      · intro t' ht'
        cases ht'
        exact htv

/-- Every expansion of one value under a transformer is non-empty. -/
theorem transformOne_ne_nil (t : ValueTransformer) (s : String) :
    transformOne t s ≠ [] := by
  cases t with
  | Base64 u => simp [transformOne]
  | Base64offset u => simp [transformOne, encode_base64_offset]
  | Windash =>
    simp only [transformOne]
    cases h : s.data with
    | nil => simp [windash_variations, h]
    | cons c rest =>
      simp only [windash_variations, h]
      split <;> simp

/-- Every value produced by the transform expansion is a `Base` string. -/
theorem transformOne_strings (t : ValueTransformer) (s : String) :
    (transformOne t s).all isBaseString = true := by
  cases t <;> simp [transformOne, List.all_map, Function.comp, isBaseString]

/-- A successful transform expansion yields only `Base` strings. -/
theorem transformValues_ok_strings (t : ValueTransformer) :
    ∀ (vals vs : List FieldValue), transformValues t vals = Except.ok vs →
      vs.all isBaseString = true := by
  intro vals
  induction vals with
  | nil =>
    intro vs h
    cases h
    rfl
  | cons v rest ih =>
    intro vs h
    unfold transformValues at h
    cases hv : v.as_string with
    | error e =>
      rw [hv] at h
      cases h
    | ok s =>
      rw [hv] at h
      cases htv : transformValues t rest with
      | error e =>
        rw [htv] at h
        cases h
      | ok vs' =>
        rw [htv] at h
        cases h
        rw [List.all_append]
        exact Bool.and_eq_true_iff.mpr ⟨transformOne_strings t s, ih vs' htv⟩

/-- A successful transform expansion of a non-empty list is non-empty. -/
theorem transformValues_ok_ne (t : ValueTransformer) :
    ∀ (vals vs : List FieldValue), transformValues t vals = Except.ok vs →
      vals ≠ [] → vs ≠ [] := by
  intro vals
  induction vals with
  | nil =>
    intro vs h hne
    exact absurd rfl hne
  | cons v rest _ =>
    intro vs h _
    unfold transformValues at h
    cases hv : v.as_string with
    | error e =>
      rw [hv] at h
      cases h
    | ok s =>
      rw [hv] at h
      cases htv : transformValues t rest with
      | error e =>
        rw [htv] at h
        cases h
      | ok vs' =>
        rw [htv] at h
        cases h
        intro hnil
        rcases List.append_eq_nil.mp hnil with ⟨h1, _⟩
        exact transformOne_ne_nil t s h1

/-- Classification of a successful per-value compilation: the output is
the unchanged input, a compiled CIDR network, or a compiled regex. -/
theorem compileOne_ok_forms (n : String) (mm : Option MatchModifier)
    (v v' : FieldValue) (h : compileOne n mm v = Except.ok v') :
    v' = v ∨ isCidrV v' = true ∨ isRegexV v' = true := by
  rcases mm with _ | m
  · cases h
    exact Or.inl rfl
  · cases m with
    | StartsWith =>
      rcases v with b | c | r | toks
      · rcases b with bb | s | i | _ <;> first | (cases h; exact Or.inl rfl) | cases h
      · cases h
      · cases h
      · cases h
    | EndsWith =>
      rcases v with b | c | r | toks
      · rcases b with bb | s | i | _ <;> first | (cases h; exact Or.inl rfl) | cases h
      · cases h
      · cases h
      · cases h
    | Contains =>
      rcases v with b | c | r | toks
      · rcases b with bb | s | i | _ <;> first | (cases h; exact Or.inl rfl) | cases h
      · cases h
      · cases h
      · cases h
    | Cidr =>
      cases hs : v.as_string with
      | error e =>
        simp only [compileOne, hs] at h
        exact Except.noConfusion h
      | ok s =>
        simp only [compileOne, hs] at h
        cases hip : IpCidr.from_str s with
        | ok ip =>
          rw [hip] at h
          cases h
          exact Or.inr (Or.inl rfl)
        | error e =>
          rw [hip] at h
          cases h
    | Re =>
      cases hs : v.as_string with
      | error e =>
        simp only [compileOne, hs] at h
        exact Except.noConfusion h
      | ok s =>
        simp only [compileOne, hs] at h
        cases hre : Regex.new s with
        | ok re =>
          rw [hre] at h
          cases h
          exact Or.inr (Or.inr rfl)
        | error e =>
          rw [hre] at h
          cases h
    | Lt =>
      cases h
      exact Or.inl rfl
    | Lte =>
      cases h
      exact Or.inl rfl
    | Gt =>
      cases h
      exact Or.inl rfl
    | Gte =>
      cases h
      exact Or.inl rfl

/-- Under a string match modifier, a successful per-value compilation
leaves the value unchanged and certifies it is a `Base` string. -/
theorem compileOne_str3 (n : String) (mm : Option MatchModifier)
    (hmm : mm = some MatchModifier.StartsWith ∨ mm = some MatchModifier.EndsWith
      ∨ mm = some MatchModifier.Contains)
    (v v' : FieldValue) (h : compileOne n mm v = Except.ok v') :
    v' = v ∧ isBaseString v = true := by
  rcases hmm with h1 | h1 | h1 <;> subst h1 <;>
    rcases v with b | c | r | toks <;>
    first
      | (rcases b with bb | s | i | _ <;>
          first
            | (cases h; exact ⟨rfl, rfl⟩)
            | cases h)
      | cases h

/-- Under a CIDR match modifier, a successful per-value compilation
yields a compiled network. -/
theorem compileOne_cidr (n : String) (v v' : FieldValue)
    (h : compileOne n (some MatchModifier.Cidr) v = Except.ok v') :
    isCidrV v' = true := by
  cases hs : v.as_string with
  | error e =>
    simp only [compileOne, hs] at h
    exact Except.noConfusion h
  | ok s =>
    simp only [compileOne, hs] at h
    cases hip : IpCidr.from_str s with
    | ok ip =>
      rw [hip] at h
      cases h
      rfl
    | error e =>
      rw [hip] at h
      cases h

/-- Under a regex match modifier, a successful per-value compilation
yields a compiled regex. -/
theorem compileOne_regex (n : String) (v v' : FieldValue)
    (h : compileOne n (some MatchModifier.Re) v = Except.ok v') :
    isRegexV v' = true := by
  cases hs : v.as_string with
  | error e =>
    simp only [compileOne, hs] at h
    exact Except.noConfusion h
  | ok s =>
    simp only [compileOne, hs] at h
    cases hre : Regex.new s with
    | ok re =>
      rw [hre] at h
      cases h
      rfl
    | error e =>
      rw [hre] at h
      cases h

/-- The plain and ordering paths compile every value to itself. -/
theorem compileOne_keep (n : String) (mm : Option MatchModifier)
    (hmm : mm = none ∨ mmIsOrdering mm = true) (v : FieldValue) :
    compileOne n mm v = Except.ok v := by
  rcases hmm with h1 | h1
  · subst h1
    rfl
  · rcases mm with _ | m
    · rfl
    · cases m <;> first | rfl | simp [mmIsOrdering] at h1

/-- Pointwise property transport through the compilation loop. -/
theorem compileList_mem_all (n : String) (mm : Option MatchModifier)
    (P : FieldValue → Bool) :
    ∀ (vals vs : List FieldValue),
      compileList n mm vals = Except.ok vs →
      (∀ v ∈ vals, ∀ v', compileOne n mm v = Except.ok v' → P v' = true) →
      vs.all P = true := by
  intro vals
  induction vals with
  | nil =>
    intro vs h _
    cases h
    rfl
  | cons v rest ih =>
    intro vs h hP
    unfold compileList at h
    cases hc : compileOne n mm v with
    | error e =>
      rw [hc] at h
      cases h
    | ok v' =>
      rw [hc] at h
      cases hr : compileList n mm rest with
      | error e =>
        rw [hr] at h
        cases h
      | ok vs' =>
        rw [hr] at h
        cases h
        rw [List.all_cons]
        refine Bool.and_eq_true_iff.mpr ⟨hP v (List.mem_cons_self v rest) v' hc, ?_⟩
        exact ih vs' hr (fun w hw w' hw' => hP w (List.mem_cons_of_mem v hw) w' hw')

/-- When every value compiles to itself, the loop is the identity. -/
theorem compileList_id (n : String) (mm : Option MatchModifier) :
    ∀ (vals : List FieldValue),
      (∀ v ∈ vals, compileOne n mm v = Except.ok v) →
      compileList n mm vals = Except.ok vals := by
  intro vals
  induction vals with
  | nil => intro _; rfl
  | cons v rest ih =>
    intro hid
    unfold compileList
    rw [hid v (List.mem_cons_self v rest)]
    rw [ih (fun w hw => hid w (List.mem_cons_of_mem v hw))]

/-- A successful compilation of a non-empty list is non-empty. -/
theorem compileList_ne (n : String) (mm : Option MatchModifier) :
    ∀ (vals vs : List FieldValue),
      compileList n mm vals = Except.ok vs → vals ≠ [] → vs ≠ [] := by
  intro vals
  induction vals with
  | nil =>
    intro vs _ hne
    exact absurd rfl hne
  | cons v rest _ =>
    intro vs h _
    unfold compileList at h
    cases hc : compileOne n mm v with
    | error e =>
      rw [hc] at h
      cases h
    | ok v' =>
      rw [hc] at h
      cases hr : compileList n mm rest with
      | error e =>
        rw [hr] at h
        cases h
      | ok vs' =>
        rw [hr] at h
        cases h
        exact List.cons_ne_nil v' vs'

/-- Wildcard compilation turns a `Base` string into a compiled pattern. -/
theorem wildcardOne_string (m : Modifier) (v : FieldValue)
    (h : isBaseString v = true) : isWild (wildcardOne m v) = true := by
  rcases v with b | c | r | toks
  · rcases b with bb | s | i | _ <;> simp_all [isBaseString, wildcardOne, isWild]
  · simp [isBaseString] at h
  · simp [isBaseString] at h
  · simp [isBaseString] at h

/-- Wildcard compilation leaves every non-string value unchanged. -/
theorem wildcardOne_not_string (m : Modifier) (v : FieldValue)
    (h : isBaseString v = false) : wildcardOne m v = v := by
  rcases v with b | c | r | toks
  · rcases b with bb | s | i | _ <;> simp_all [isBaseString, wildcardOne]
  · rfl
  · rfl
  · rfl

/-- Mapping wildcard compilation over a list without strings is the
identity. -/
theorem map_wildcardOne_id (m : Modifier) :
    ∀ (vs : List FieldValue), vs.all (fun v => !isBaseString v) = true →
      vs.map (wildcardOne m) = vs := by
  intro vs
  induction vs with
  | nil => intro _; rfl
  | cons v rest ih =>
    intro h
    rw [List.all_cons] at h
    have hv := (Bool.and_eq_true _ _).mp h
    rw [List.map_cons, ih hv.2,
      wildcardOne_not_string m v (Bool.not_eq_true' .. ▸ hv.1)]

/-- A `Base` string is a `Base` value. -/
theorem isBase_of_isBaseString (v : FieldValue) (h : isBaseString v = true) :
    isBase v = true := by
  rcases v with b | c | r | toks <;> simp_all [isBaseString, isBase]

/-- A compiled CIDR value is not a `Base` string. -/
theorem not_string_of_isCidrV (v : FieldValue) (h : isCidrV v = true) :
    isBaseString v = false := by
  rcases v with b | c | r | toks <;> simp_all [isCidrV, isBaseString]

/-- A compiled regex value is not a `Base` string. -/
theorem not_string_of_isRegexV (v : FieldValue) (h : isRegexV v = true) :
    isBaseString v = false := by
  rcases v with b | c | r | toks <;> simp_all [isRegexV, isBaseString]

/-- A `Base` value is not a compiled wildcard pattern. -/
theorem not_wild_of_isBase (v : FieldValue) (h : isBase v = true) :
    isWild v = false := by
  rcases v with b | c | r | toks <;> simp_all [isBase, isWild]

/-- Decomposition of a successful bootstrap into its stages: the values
were non-empty, the transform stage produced `vs2` (the original list
when no transformer is set), the compilation loop produced `vs`, and the
result is the wildcard stage applied to `vs` with the ordering flag
computed on `vs2`. -/
theorem bootstrap_ok_destruct (f f' : Field) (hok : f.bootstrap = Except.ok f') :
    ∃ e vs2 vs,
      f.values ≠ [] ∧
      ((f.modifier.value_transformer = none ∧ vs2 = f.values) ∨
        (∃ t, f.modifier.value_transformer = some t ∧
          transformValues t f.values = Except.ok vs2)) ∧
      compileList f.name f.modifier.match_modifier vs2 = Except.ok vs ∧
      f' = wildcardStep
        { f with modifier := { f.modifier with exists_ := e }, values := vs }
        (orderProvided f.modifier.match_modifier vs2) := by
  unfold Field.bootstrap at hok
  cases hemp : f.values.isEmpty with
  | true =>
    rw [hemp] at hok
    cases hok
  | false =>
    rw [hemp] at hok
    simp only [Bool.false_eq_true, if_false] at hok
    have hne : f.values ≠ [] := by
      intro hnil
      rw [hnil] at hemp
      cases hemp
    cases hstep : existsStep f with
    | error e =>
      rw [hstep] at hok
      simp only [] at hok
      exact Except.noConfusion hok
    | ok f1 =>
      rw [hstep] at hok
      simp only [] at hok
      obtain ⟨e, he⟩ := existsStep_ok_shape f f1 hstep
      subst he
      cases htr : transformStep { f with modifier := { f.modifier with exists_ := e } } with
      | error e2 =>
        rw [htr] at hok
        simp only [] at hok
        exact Except.noConfusion hok
      | ok f2 =>
        rw [htr] at hok
        simp only [] at hok
        obtain ⟨vs2, hf2, htrn, htrs⟩ := transformStep_ok_shape _ f2 htr
        subst hf2
        simp only [] at hok
        cases hcl : compileList f.name f.modifier.match_modifier vs2 with
        | error e3 =>
          rw [hcl] at hok
          simp only [] at hok
          exact Except.noConfusion hok
        | ok vs =>
          rw [hcl] at hok
          simp only [] at hok
          cases hok
          refine ⟨e, vs2, vs, hne, ?_, hcl, rfl⟩
          cases htv : f.modifier.value_transformer with
          | none =>
            refine Or.inl ⟨rfl, ?_⟩
            exact htrn (by simpa using htv)
          | some t =>
            refine Or.inr ⟨t, rfl, ?_⟩
            exact htrs t (by simpa using htv)

/-! ## Claim C4: shape of the compiled value list -/

/-- Pointwise implication between `all` predicates. -/
theorem list_all_imp {α : Type} (p q : α → Bool) (h : ∀ a, p a = true → q a = true) :
    ∀ l : List α, l.all p = true → l.all q = true := by
  intro l hl
  rw [List.all_eq_true] at hl ⊢
  exact fun a ha => h a (hl a ha)

/-- Wildcard compilation of a `Base` value yields a compiled pattern or
keeps a non-string `Base` value. -/
theorem wildcardOne_shape (m : Modifier) (v : FieldValue) (h : isBase v = true) :
    (isWild (wildcardOne m v) ||
      (isBase (wildcardOne m v) && !isBaseString (wildcardOne m v))) = true := by
  cases hs : isBaseString v with
  | true =>
    rw [wildcardOne_string m v hs]
    rfl
  | false =>
    rw [wildcardOne_not_string m v hs, hs, h]
    simp

/-- A concrete plain field mixing a string and a number (input to the
counterexample for the homogeneity claim). -/
def mixedField : Field :=
  { name := "test",
    values := [FieldValue.Base (BaseValue.String "a"), FieldValue.Base (BaseValue.Int 5)],
    modifier := plainModifier }

/-- Counterexample to C4 as stated: a plain-equality field with a string
value and a numeric value bootstraps successfully into a MIX of a
compiled `WildcardPattern` and an uncompiled `Base` value — the values
list is not homogeneous, and the `Base` form is retained for a field
that is neither `fieldref` nor ordering nor exists. -/
theorem bootstrap_mixed_values_counterexample :
    ∃ f' t, mixedField.bootstrap = Except.ok f' ∧
      f'.values = [FieldValue.WildcardPattern t, FieldValue.Base (BaseValue.Int 5)] ∧
      mixedField.modifier.fieldref = false ∧
      mixedField.modifier.match_modifier = none ∧
      mixedField.modifier.exists_ = none := by
  refine ⟨{ name := "test",
            values := [FieldValue.WildcardPattern [WildcardToken.Pattern ['a']],
                       FieldValue.Base (BaseValue.Int 5)],
            modifier := plainModifier },
          [WildcardToken.Pattern ['a']], ?_, rfl, rfl, rfl, rfl⟩
  rfl

/-- C4 amended: for any all-`Base` input value list (as produced by the
rule-document loader), `bootstrap` either fails with exactly one
discriminated error or succeeds with a non-empty value list that is all
compiled CIDR networks, all compiled regexes, all uncompiled `Base`
values (the `fieldref`, ordering and exists cases, and plain non-string
values), or string values all compiled to `WildcardPattern` with any
non-string `Base` values retained alongside them (so a mixed
wildcard/number list is possible under plain equality). -/
theorem bootstrap_values_shape (f : Field) (hbase : f.values.all isBase = true) :
    (∃ e, f.bootstrap = Except.error e) ∨
    (∃ f', f.bootstrap = Except.ok f' ∧ f'.values ≠ [] ∧
      (f'.values.all isCidrV = true ∨ f'.values.all isRegexV = true ∨
       f'.values.all isBase = true ∨
       f'.values.all (fun v => isWild v || (isBase v && !isBaseString v)) = true)) := by
  cases hb : f.bootstrap with
  | error e => exact Or.inl ⟨e, rfl⟩
  | ok f' =>
    obtain ⟨e, vs2, vs, hne, htrc, hcl, hf'⟩ := bootstrap_ok_destruct f f' hb
    have hvs2base : vs2.all isBase = true := by
      rcases htrc with ⟨_, hv⟩ | ⟨t, _, htv⟩
      · rw [hv]
        exact hbase
      · exact list_all_imp _ _ isBase_of_isBaseString vs2
          (transformValues_ok_strings t f.values vs2 htv)
    have hvs2ne : vs2 ≠ [] := by
      rcases htrc with ⟨_, hv⟩ | ⟨t, _, htv⟩
      · rw [hv]
        exact hne
      · exact transformValues_ok_ne t f.values vs2 htv hne
    have hvsne : vs ≠ [] :=
      compileList_ne f.name f.modifier.match_modifier vs2 vs hcl hvs2ne
    have hfvT : (!f.modifier.fieldref && !(orderProvided f.modifier.match_modifier vs2)) = true →
        f'.values = vs.map (wildcardOne { f.modifier with exists_ := e }) := by
      intro hc
      rw [hf']
      simp only [wildcardStep]
      rw [hc]
      rfl
    have hfvF : (!f.modifier.fieldref && !(orderProvided f.modifier.match_modifier vs2)) = false →
        f'.values = vs := by
      intro hc
      rw [hf']
      simp only [wildcardStep]
      rw [hc]
      rfl
    have hne' : f'.values ≠ [] := by
      cases hc : (!f.modifier.fieldref && !(orderProvided f.modifier.match_modifier vs2)) with
      | true =>
        rw [hfvT hc]
        intro hnil
        exact hvsne (List.map_eq_nil_iff.mp hnil)
      | false =>
        rw [hfvF hc]
        exact hvsne
    refine Or.inr ⟨f', rfl, hne', ?_⟩
    rcases hmmEq : f.modifier.match_modifier with _ | m
    · -- plain equality path: values unchanged by compilation
      have hid : vs = vs2 := by
        have h1 := compileList_id f.name f.modifier.match_modifier vs2
          (fun v _ => compileOne_keep f.name f.modifier.match_modifier (Or.inl hmmEq) v)
        exact (Except.ok.inj (h1.symm.trans hcl)).symm
      cases hc : (!f.modifier.fieldref && !(orderProvided f.modifier.match_modifier vs2)) with
      | true =>
        refine Or.inr (Or.inr (Or.inr ?_))
        rw [hfvT hc, List.all_map]
        exact list_all_imp _ _
          (fun v hv => wildcardOne_shape { f.modifier with exists_ := e } v hv)
          vs (hid ▸ hvs2base)
      | false =>
        refine Or.inr (Or.inr (Or.inl ?_))
        rw [hfvF hc, hid]
        exact hvs2base
    · cases m with
      | StartsWith =>
        have hallstr : vs.all isBaseString = true := by
          refine compileList_mem_all f.name f.modifier.match_modifier isBaseString vs2 vs hcl ?_
          intro v _ v' hcv
          rw [hmmEq] at hcv
          obtain ⟨hev, hsv⟩ := compileOne_str3 f.name _ (Or.inl rfl) v v' hcv
          rw [hev]
          exact hsv
        cases hc : (!f.modifier.fieldref && !(orderProvided f.modifier.match_modifier vs2)) with
        | true =>
          refine Or.inr (Or.inr (Or.inr ?_))
          rw [hfvT hc, List.all_map]
          refine list_all_imp _ _ ?_ vs hallstr
          intro v hv
          have := wildcardOne_string { f.modifier with exists_ := e } v hv
          simp [Function.comp, this]
        | false =>
          refine Or.inr (Or.inr (Or.inl ?_))
          rw [hfvF hc]
          exact list_all_imp _ _ isBase_of_isBaseString vs hallstr
      | EndsWith =>
        have hallstr : vs.all isBaseString = true := by
          refine compileList_mem_all f.name f.modifier.match_modifier isBaseString vs2 vs hcl ?_
          intro v _ v' hcv
          rw [hmmEq] at hcv
          obtain ⟨hev, hsv⟩ := compileOne_str3 f.name _ (Or.inr (Or.inl rfl)) v v' hcv
          rw [hev]
          exact hsv
        cases hc : (!f.modifier.fieldref && !(orderProvided f.modifier.match_modifier vs2)) with
        | true =>
          refine Or.inr (Or.inr (Or.inr ?_))
          rw [hfvT hc, List.all_map]
          refine list_all_imp _ _ ?_ vs hallstr
          intro v hv
          have := wildcardOne_string { f.modifier with exists_ := e } v hv
          simp [Function.comp, this]
        | false =>
          refine Or.inr (Or.inr (Or.inl ?_))
          rw [hfvF hc]
          exact list_all_imp _ _ isBase_of_isBaseString vs hallstr
      | Contains =>
        have hallstr : vs.all isBaseString = true := by
          refine compileList_mem_all f.name f.modifier.match_modifier isBaseString vs2 vs hcl ?_
          intro v _ v' hcv
          rw [hmmEq] at hcv
          obtain ⟨hev, hsv⟩ := compileOne_str3 f.name _ (Or.inr (Or.inr rfl)) v v' hcv
          rw [hev]
          exact hsv
        cases hc : (!f.modifier.fieldref && !(orderProvided f.modifier.match_modifier vs2)) with
        | true =>
          refine Or.inr (Or.inr (Or.inr ?_))
          rw [hfvT hc, List.all_map]
          refine list_all_imp _ _ ?_ vs hallstr
          intro v hv
          have := wildcardOne_string { f.modifier with exists_ := e } v hv
          simp [Function.comp, this]
        | false =>
          refine Or.inr (Or.inr (Or.inl ?_))
          rw [hfvF hc]
          exact list_all_imp _ _ isBase_of_isBaseString vs hallstr
      | Cidr =>
        have hallc : vs.all isCidrV = true := by
          refine compileList_mem_all f.name f.modifier.match_modifier isCidrV vs2 vs hcl ?_
          intro v _ v' hcv
          rw [hmmEq] at hcv
          exact compileOne_cidr f.name v v' hcv
        refine Or.inl ?_
        cases hc : (!f.modifier.fieldref && !(orderProvided f.modifier.match_modifier vs2)) with
        | true =>
          rw [hfvT hc, map_wildcardOne_id _ vs
            (list_all_imp _ _ (fun v hv => by rw [not_string_of_isCidrV v hv]; rfl) vs hallc)]
          exact hallc
        | false =>
          rw [hfvF hc]
          exact hallc
      | Re =>
        have hallr : vs.all isRegexV = true := by
          refine compileList_mem_all f.name f.modifier.match_modifier isRegexV vs2 vs hcl ?_
          intro v _ v' hcv
          rw [hmmEq] at hcv
          exact compileOne_regex f.name v v' hcv
        refine Or.inr (Or.inl ?_)
        cases hc : (!f.modifier.fieldref && !(orderProvided f.modifier.match_modifier vs2)) with
        | true =>
          rw [hfvT hc, map_wildcardOne_id _ vs
            (list_all_imp _ _ (fun v hv => by rw [not_string_of_isRegexV v hv]; rfl) vs hallr)]
          exact hallr
        | false =>
          rw [hfvF hc]
          exact hallr
      | Lt =>
        have hid : vs = vs2 := by
          have h1 := compileList_id f.name f.modifier.match_modifier vs2
            (fun v _ => compileOne_keep f.name f.modifier.match_modifier
              (Or.inr (by rw [hmmEq]; rfl)) v)
          exact (Except.ok.inj (h1.symm.trans hcl)).symm
        have hc : (!f.modifier.fieldref && !(orderProvided f.modifier.match_modifier vs2)) = false := by
          rw [hmmEq]
          unfold orderProvided
          rw [List.isEmpty_eq_false_iff_exists_mem.mpr]
          · simp
          · rcases vs2 with _ | ⟨v, rest⟩
            · exact absurd rfl hvs2ne
            · exact ⟨v, List.mem_cons_self v rest⟩
        refine Or.inr (Or.inr (Or.inl ?_))
        rw [hfvF hc, hid]
        exact hvs2base
      | Lte =>
        have hid : vs = vs2 := by
          have h1 := compileList_id f.name f.modifier.match_modifier vs2
            (fun v _ => compileOne_keep f.name f.modifier.match_modifier
              (Or.inr (by rw [hmmEq]; rfl)) v)
          exact (Except.ok.inj (h1.symm.trans hcl)).symm
        have hc : (!f.modifier.fieldref && !(orderProvided f.modifier.match_modifier vs2)) = false := by
          rw [hmmEq]
          unfold orderProvided
          rw [List.isEmpty_eq_false_iff_exists_mem.mpr]
          · simp
          · rcases vs2 with _ | ⟨v, rest⟩
            · exact absurd rfl hvs2ne
            · exact ⟨v, List.mem_cons_self v rest⟩
        refine Or.inr (Or.inr (Or.inl ?_))
        rw [hfvF hc, hid]
        exact hvs2base
      | Gt =>
        have hid : vs = vs2 := by
          have h1 := compileList_id f.name f.modifier.match_modifier vs2
            (fun v _ => compileOne_keep f.name f.modifier.match_modifier
              (Or.inr (by rw [hmmEq]; rfl)) v)
          exact (Except.ok.inj (h1.symm.trans hcl)).symm
        have hc : (!f.modifier.fieldref && !(orderProvided f.modifier.match_modifier vs2)) = false := by
          rw [hmmEq]
          unfold orderProvided
          rw [List.isEmpty_eq_false_iff_exists_mem.mpr]
          · simp
          · rcases vs2 with _ | ⟨v, rest⟩
            · exact absurd rfl hvs2ne
            · exact ⟨v, List.mem_cons_self v rest⟩
        refine Or.inr (Or.inr (Or.inl ?_))
        rw [hfvF hc, hid]
        exact hvs2base
      | Gte =>
        have hid : vs = vs2 := by
          have h1 := compileList_id f.name f.modifier.match_modifier vs2
            (fun v _ => compileOne_keep f.name f.modifier.match_modifier
              (Or.inr (by rw [hmmEq]; rfl)) v)
          exact (Except.ok.inj (h1.symm.trans hcl)).symm
        have hc : (!f.modifier.fieldref && !(orderProvided f.modifier.match_modifier vs2)) = false := by
          rw [hmmEq]
          unfold orderProvided
          rw [List.isEmpty_eq_false_iff_exists_mem.mpr]
          · simp
          · rcases vs2 with _ | ⟨v, rest⟩
            · exact absurd rfl hvs2ne
            · exact ⟨v, List.mem_cons_self v rest⟩
        refine Or.inr (Or.inr (Or.inl ?_))
        rw [hfvF hc, hid]
        exact hvs2base

/-- Witness for C4 amended: the shape theorem applied at a concrete
all-`Base` field. -/
theorem bootstrap_values_shape_witness :
    (∃ e, quantField.bootstrap = Except.error e) ∨
    (∃ f', quantField.bootstrap = Except.ok f' ∧ f'.values ≠ [] ∧
      (f'.values.all isCidrV = true ∨ f'.values.all isRegexV = true ∨
       f'.values.all isBase = true ∨
       f'.values.all (fun v => isWild v || (isBase v && !isBaseString v)) = true)) :=
  bootstrap_values_shape quantField (by decide)

/-! ## Claim C5: when wildcard compilation runs and what it produces -/

/-- When every successful per-value compilation is the identity, the
compiled list equals the input list. -/
theorem compileList_ok_id (n : String) (mm : Option MatchModifier)
    (hptw : ∀ v v', compileOne n mm v = Except.ok v' → v' = v) :
    ∀ (vals vs : List FieldValue), compileList n mm vals = Except.ok vs → vs = vals := by
  intro vals
  induction vals with
  | nil =>
    intro vs h
    cases h
    rfl
  | cons v rest ih =>
    intro vs h
    unfold compileList at h
    cases hc : compileOne n mm v with
    | error e =>
      rw [hc] at h
      cases h
    | ok v' =>
      rw [hc] at h
      cases hr : compileList n mm rest with
      | error e =>
        rw [hr] at h
        cases h
      | ok vs' =>
        rw [hr] at h
        cases h
        rw [hptw v v' hc, ih vs' hr]

/-- A compiled CIDR value is not a wildcard pattern. -/
theorem not_wild_of_isCidrV (v : FieldValue) (h : isCidrV v = true) :
    isWild v = false := by
  rcases v with b | c | r | toks <;> simp_all [isCidrV, isWild]

/-- A compiled regex value is not a wildcard pattern. -/
theorem not_wild_of_isRegexV (v : FieldValue) (h : isRegexV v = true) :
    isWild v = false := by
  rcases v with b | c | r | toks <;> simp_all [isRegexV, isWild]

/-- Under an ordering modifier the `order_modifier_provided` flag equals
non-emptiness of the value list. -/
theorem orderProvided_of_ordering (mm : Option MatchModifier)
    (vs : List FieldValue) (h : mmIsOrdering mm = true) :
    orderProvided mm vs = !vs.isEmpty := by
  rcases mm with _ | m
  · simp [mmIsOrdering] at h
  · cases m <;> first | rfl | simp [mmIsOrdering] at h

/-- The wildcard compilation of one value ignores the `exists_` flag. -/
theorem wildcardOne_exists_irrel (m : Modifier) (e : Option Bool) (v : FieldValue) :
    wildcardOne { m with exists_ := e } v = wildcardOne m v := by
  rcases v with b | c | r | toks
  · rcases b with bb | s | i | _ <;> rfl
  · rfl
  · rfl
  · rfl

/-- C5: for an all-`Base` field that bootstraps successfully: (a) when
the field is `fieldref` or an ordering modifier was given, no value is
wildcard-compiled; (b) when the field is not `fieldref`, no ordering
modifier and no CIDR/regex compilation and no transformer and no exists
flag apply, the compiled values are exactly the input values mapped
through wildcard compilation — every string value is tokenized
(case-folded unless `cased`) with a leading `Star` for EndsWith and
Contains and a trailing `Star` for StartsWith and Contains, and no
anchors for plain equality (see `wildcardOne`). -/
theorem wildcard_compilation_condition (f f' : Field)
    (hbase : f.values.all isBase = true)
    (hok : f.bootstrap = Except.ok f') :
    ((f.modifier.fieldref = true ∨ mmIsOrdering f.modifier.match_modifier = true) →
      f'.values.all (fun v => !isWild v) = true)
    ∧ (f.modifier.fieldref = false → f.modifier.value_transformer = none →
       f.modifier.exists_ = none → mmIsOrdering f.modifier.match_modifier = false →
       f.modifier.match_modifier ≠ some MatchModifier.Cidr →
       f.modifier.match_modifier ≠ some MatchModifier.Re →
       f'.values = f.values.map (wildcardOne f.modifier)) := by
  obtain ⟨e, vs2, vs, hne, htrc, hcl, hf'⟩ := bootstrap_ok_destruct f f' hok
  have hvs2base : vs2.all isBase = true := by
    rcases htrc with ⟨_, hv⟩ | ⟨t, _, htv⟩
    · rw [hv]
      exact hbase
    · exact list_all_imp _ _ isBase_of_isBaseString vs2
        (transformValues_ok_strings t f.values vs2 htv)
  have hvs2ne : vs2 ≠ [] := by
    rcases htrc with ⟨_, hv⟩ | ⟨t, _, htv⟩
    · rw [hv]
      exact hne
    · exact transformValues_ok_ne t f.values vs2 htv hne
  have hfvF : (!f.modifier.fieldref && !(orderProvided f.modifier.match_modifier vs2)) = false →
      f'.values = vs := by
    intro hc
    rw [hf']
    simp only [wildcardStep]
    rw [hc]
    rfl
  constructor
  · intro hcase
    have hvsNotWild : vs.all (fun v => !isWild v) = true := by
      refine compileList_mem_all f.name f.modifier.match_modifier _ vs2 vs hcl ?_
      intro v hv v' hcv
      have hvb : isBase v = true := List.all_eq_true.mp hvs2base v hv
      rcases compileOne_ok_forms f.name f.modifier.match_modifier v v' hcv with hev | hcv' | hrv'
      · rw [hev, not_wild_of_isBase v hvb]
        rfl
      · rw [not_wild_of_isCidrV v' hcv']
        rfl
      · rw [not_wild_of_isRegexV v' hrv']
        rfl
    have hc : (!f.modifier.fieldref && !(orderProvided f.modifier.match_modifier vs2)) = false := by
      rcases hcase with hfr | hord
      · rw [hfr]
        rfl
      · rw [orderProvided_of_ordering f.modifier.match_modifier vs2 hord]
        have : vs2.isEmpty = false := by
          rcases hv2 : vs2 with _ | ⟨v, rest⟩
          · exact absurd hv2 hvs2ne
          · rfl
        rw [this]
        simp
    rw [hfvF hc]
    exact hvsNotWild
  · intro hfr htv hex hord hncidr hnre
    have hvs2eq : vs2 = f.values := by
      rcases htrc with ⟨_, hv⟩ | ⟨t, ht, _⟩
      · exact hv
      · rw [htv] at ht
        exact Option.noConfusion ht
    have hvseq : vs = vs2 := by
      refine compileList_ok_id f.name f.modifier.match_modifier ?_ vs2 vs hcl
      intro v v' hcv
      rcases hmmEq : f.modifier.match_modifier with _ | m
      · rw [hmmEq] at hcv
        exact (Except.ok.inj hcv).symm
      · cases m with
        | StartsWith =>
          rw [hmmEq] at hcv
          exact (compileOne_str3 f.name _ (Or.inl rfl) v v' hcv).1
        | EndsWith =>
          rw [hmmEq] at hcv
          exact (compileOne_str3 f.name _ (Or.inr (Or.inl rfl)) v v' hcv).1
        | Contains =>
          rw [hmmEq] at hcv
          exact (compileOne_str3 f.name _ (Or.inr (Or.inr rfl)) v v' hcv).1
        | Cidr => exact absurd hmmEq hncidr
        | Re => exact absurd hmmEq hnre
        | Lt => rw [hmmEq] at hord; simp [mmIsOrdering] at hord
        | Lte => rw [hmmEq] at hord; simp [mmIsOrdering] at hord
        | Gt => rw [hmmEq] at hord; simp [mmIsOrdering] at hord
        | Gte => rw [hmmEq] at hord; simp [mmIsOrdering] at hord
    have homp : orderProvided f.modifier.match_modifier vs2 = false := by
      rcases hmmEq : f.modifier.match_modifier with _ | m
      · rfl
      · cases m with
        | StartsWith => rfl
        | EndsWith => rfl
        | Contains => rfl
        | Cidr => exact absurd hmmEq hncidr
        | Re => exact absurd hmmEq hnre
        | Lt => rw [hmmEq] at hord; simp [mmIsOrdering] at hord
        | Lte => rw [hmmEq] at hord; simp [mmIsOrdering] at hord
        | Gt => rw [hmmEq] at hord; simp [mmIsOrdering] at hord
        | Gte => rw [hmmEq] at hord; simp [mmIsOrdering] at hord
    have hc : (!f.modifier.fieldref && !(orderProvided f.modifier.match_modifier vs2)) = true := by
      rw [hfr, homp]
      rfl
    have hfvT : f'.values = vs.map (wildcardOne { f.modifier with exists_ := e }) := by
      rw [hf']
      simp only [wildcardStep]
      rw [hc]
      rfl
    rw [hfvT, hvseq, hvs2eq]
    refine List.map_congr_left ?_
    intro v _
    exact wildcardOne_exists_irrel f.modifier e v

/-- A concrete contains field over one string value (input to the
wildcard-compilation witness). -/
def containsField : Field :=
  { name := "t", values := [FieldValue.Base (BaseValue.String "ab")],
    modifier := { plainModifier with match_modifier := some MatchModifier.Contains } }

/-- The compiled form of `containsField`: the string is tokenized and
anchored with a leading and trailing `Star`. -/
def containsCompiledField : Field :=
  { name := "t",
    values := [FieldValue.WildcardPattern
      [WildcardToken.Star, WildcardToken.Pattern ['a', 'b'], WildcardToken.Star]],
    modifier := { plainModifier with match_modifier := some MatchModifier.Contains } }

/-- Witness for C5: the wildcard-compilation theorem applied at a
concrete contains field. -/
theorem wildcard_compilation_condition_witness :
    ((containsField.modifier.fieldref = true ∨
        mmIsOrdering containsField.modifier.match_modifier = true) →
      containsCompiledField.values.all (fun v => !isWild v) = true)
    ∧ (containsField.modifier.fieldref = false →
       containsField.modifier.value_transformer = none →
       containsField.modifier.exists_ = none →
       mmIsOrdering containsField.modifier.match_modifier = false →
       containsField.modifier.match_modifier ≠ some MatchModifier.Cidr →
       containsField.modifier.match_modifier ≠ some MatchModifier.Re →
       containsCompiledField.values =
         containsField.values.map (wildcardOne containsField.modifier)) :=
  wildcard_compilation_condition containsField containsCompiledField (by decide) rfl

end Tau
